import Mathlib

/-!
A Lean 4 shallow embedding of the artifact-discovery core of the
hanjos/nexus Go client, together with proofs about its behavior.

The embedding mirrors the Go source:
  * Artifact and its hash method              (artifact.go)
  * artifactSet with its add method           (artifact.go)
  * concurrentArtifactSearch's reducer        (artifact.go)
  * has, filterPoms, fetchArtifactsWhere      (nexus.go)
  * search.Criteria, OrZero, Artifacts        (search/search.go, nexus.go)

Go maps from string to string are modelled as association lists with
unique keys; the remote fetch-and-decode capability is modelled as a
function from the pagination offset to a decoded payload or an error;
goroutine scheduling is modelled by quantifying over the order in which
worker completions are delivered to the reducer.
-/

namespace Nexus

/-- Artifact is a Maven coordinate to a single artifact, plus the
repository where it came from. Mirrors the Go struct field for field. -/
structure Artifact where
  groupId      : String
  artifactId   : String
  version      : String
  classifier   : String
  extension    : String
  repositoryId : String
deriving DecidableEq, Repr

/-- The hash method used for the artifact set:
groupId : artifactId : version : extension : classifier @ repositoryId. -/
def Artifact.hash (a : Artifact) : String :=
  a.groupId ++ ":" ++ a.artifactId ++ ":" ++ a.version ++ ":" ++
    a.extension ++ ":" ++ a.classifier ++ "@" ++ a.repositoryId

/-- The make-shift artifact set: a list piling up the artifacts plus the
set of hashes seen so far (the Go map `hashMap` keyed by hash, modelled by
its key set). -/
structure artifactSet where
  data    : List Artifact
  hashMap : List String
deriving DecidableEq, Repr

/-- Creates and initializes a new set of artifacts. -/
def newArtifactSet : artifactSet := ⟨[], []⟩

/-- One step of the loop body of artifactSet.add: hash the artifact,
record the hash, and append the artifact only when the hash was unseen.
(Setting an already-present key in a Go map leaves the map unchanged.) -/
def artifactSet.addOne (s : artifactSet) (a : Artifact) : artifactSet :=
  if a.hash ∈ s.hashMap then s else ⟨s.data ++ [a], a.hash :: s.hashMap⟩

/-- Adds a bunch of artifacts to this set (artifactSet.add in the Go
source), processing them in order. -/
def artifactSet.add (s : artifactSet) (artifacts : List Artifact) : artifactSet :=
  artifacts.foldl artifactSet.addOne s

/-- Merging a sequence of batches into a fresh set, one add call per
batch. -/
def mergeAll (batches : List (List Artifact)) : artifactSet :=
  batches.foldl artifactSet.add newArtifactSet

instance {ε α : Type} [DecidableEq ε] [DecidableEq α] :
    DecidableEq (Except ε α)
  | Except.error a, Except.error b => decidable_of_iff (a = b) (by simp)
  | Except.error _, Except.ok _ => isFalse (by simp)
  | Except.ok _, Except.error _ => isFalse (by simp)
  | Except.ok a, Except.ok b => decidable_of_iff (a = b) (by simp)

/-- A Go map from string to string, modelled as an association list with
unique keys; lookup is List.lookup. -/
abbrev StrMap := List (String × String)

/-- Setting a key in a Go map: replace the value when the key is present,
add the pair otherwise. -/
def mapSet (m : StrMap) (key value : String) : StrMap :=
  if (m.lookup key).isSome then
    m.map (fun p => if p.1 = key then (key, value) else p)
  else
    m ++ [(key, value)]

/-- A slight modification of Go's v, ok := m[key] idiom: has returns
false for ok if value is "". An absent key yields Go's zero value "". -/
def has (m : StrMap) (key : String) : String × Bool :=
  match m.lookup key with
  | some value => if value = "" then (value, false) else (value, true)
  | none => ("", false)

/-- The POM-removal loop of filterPoms, mirroring the Go index loop
  for i := 0; i < len(artifacts); i++
    if artifacts[i].Extension == "pom"
      artifacts = append(artifacts[:i], artifacts[i+1:]...)
Removing at index i shifts the suffix left, and the loop then increments
i, so the element just shifted into position i is not examined. -/
def pomLoop (i : Nat) (l : List Artifact) : List Artifact :=
  if h : i < l.length then
    if (l.get ⟨i, h⟩).extension = "pom" then
      pomLoop (i + 1) (l.eraseIdx i)
    else
      pomLoop (i + 1) l
  else l
termination_by l.length - i
decreasing_by
  · have := List.length_eraseIdx_add_one h; omega
  · omega

/-- Nexus 2.x's search always returns the POMs, even when one filters
specifically for the packaging or the classifier, so filterPoms takes
them out when the packaging filter is a nonempty value other than "pom"
or the classifier filter is a nonempty value. -/
def filterPoms (artifacts : List Artifact) (filter : StrMap) : List Artifact :=
  let pack := has filter "p"
  let cls := has filter "c"
  if (pack.2 && pack.1 != "pom") || cls.2 then
    pomLoop 0 artifacts
  else
    artifacts

/-- A concrete POM artifact, used in concrete evaluations. -/
def pomA : Artifact := ⟨"g", "a", "1", "", "pom", "r"⟩

/-- A second concrete POM artifact, distinct from pomA. -/
def pomB : Artifact := ⟨"g", "b", "1", "", "pom", "r"⟩

/-- A concrete jar artifact, used in concrete evaluations. -/
def jarA : Artifact := ⟨"g", "a", "1", "", "jar", "r"⟩

theorem pomLoop_of_no_pom (i : Nat) (l : List Artifact)
    (hl : ∀ a ∈ l, a.extension ≠ "pom") : pomLoop i l = l := by
  induction i, l using pomLoop.induct with
  | case1 i l h hpom ih =>
    exact absurd hpom (hl _ (l.get_mem _ _))
  | case2 i l h hpom ih =>
    rw [pomLoop, dif_pos h, if_neg hpom]
    exact ih hl
  | case3 i l h =>
    rw [pomLoop, dif_neg h]

theorem pomLoop_length_le (i : Nat) (l : List Artifact) :
    (pomLoop i l).length ≤ l.length := by
  induction i, l using pomLoop.induct with
  | case1 i l h hpom ih =>
    rw [pomLoop, dif_pos h, if_pos hpom]
    have := List.length_eraseIdx_add_one h
    omega
  | case2 i l h hpom ih =>
    rw [pomLoop, dif_pos h, if_neg hpom]
    exact ih
  | case3 i l h =>
    rw [pomLoop, dif_neg h]

theorem pomLoop_length_lt (i : Nat) (l : List Artifact)
    (hl : ∃ j, ∃ h : j < l.length, i ≤ j ∧ (l.get ⟨j, h⟩).extension = "pom") :
    (pomLoop i l).length < l.length := by
  induction i, l using pomLoop.induct with
  | case1 i l h hpom ih =>
    rw [pomLoop, dif_pos h, if_pos hpom]
    have h1 := pomLoop_length_le (i + 1) (l.eraseIdx i)
    have h2 := List.length_eraseIdx_add_one h
    omega
  | case2 i l h hpom ih =>
    rw [pomLoop, dif_pos h, if_neg hpom]
    apply ih
    obtain ⟨j, hj, hij, hjpom⟩ := hl
    refine ⟨j, hj, ?_, hjpom⟩
    rcases Nat.eq_or_lt_of_le hij with heq | hlt
    · subst heq; exact absurd hjpom hpom
    · exact hlt
  | case3 i l h =>
    obtain ⟨j, hj, hij, _⟩ := hl
    omega

/-- The boolean POM-removal trigger computed by filterPoms, spelled out
as a proposition over the raw filter lookups. -/
theorem trigger_iff (f : StrMap) :
    ((((has f "p").2 && ((has f "p").1 != "pom")) || (has f "c").2) = true) ↔
      ((∃ p, f.lookup "p" = some p ∧ p ≠ "" ∧ p ≠ "pom") ∨
       (∃ c, f.lookup "c" = some c ∧ c ≠ "")) := by
  have hC : ((has f "c").2 = true ↔ ∃ v, f.lookup "c" = some v ∧ v ≠ "") := by
    unfold has
    cases hk : f.lookup "c" with
    | none => simp
    | some v => by_cases hv : v = "" <;> simp [hv]
  have hP : (((has f "p").2 && ((has f "p").1 != "pom")) = true ↔
      ∃ p, f.lookup "p" = some p ∧ p ≠ "" ∧ p ≠ "pom") := by
    unfold has
    cases hk : f.lookup "p" with
    | none => simp
    | some v => by_cases hv : v = "" <;> simp [hv]
  rw [Bool.or_eq_true, hP, hC]

/-- C1 (amended): the POM-exclusion step leaves the page untouched if
and only if the trigger fails or the page holds no POM entry, where the
trigger is: the packaging filter is present with a nonempty value other
than "pom", or the classifier filter is present with a nonempty value.
In particular a classifier filter set to the empty string does not
trigger removal, and a filter with neither packaging nor classifier
leaves POM results untouched. -/
theorem pom_exclusion_trigger (l : List Artifact) (f : StrMap) :
    filterPoms l f = l ↔
      (¬ ((∃ p, f.lookup "p" = some p ∧ p ≠ "" ∧ p ≠ "pom") ∨
          (∃ c, f.lookup "c" = some c ∧ c ≠ "")) ∨
       ∀ a ∈ l, a.extension ≠ "pom") := by
  by_cases hcond :
      ((((has f "p").2 && ((has f "p").1 != "pom")) || (has f "c").2) = true)
  · have hfp : filterPoms l f = pomLoop 0 l := by
      simp only [filterPoms]
      rw [if_pos hcond]
    rw [hfp]
    constructor
    · intro heq
      right
      intro a ha hpom
      obtain ⟨⟨j, hj⟩, hget⟩ := List.mem_iff_get.mp ha
      have hlt : (pomLoop 0 l).length < l.length :=
        pomLoop_length_lt 0 l ⟨j, hj, Nat.zero_le j, by rw [hget]; exact hpom⟩
      rw [heq] at hlt
      omega
    · rintro (h | h)
      · exact absurd ((trigger_iff f).mp hcond) h
      · exact pomLoop_of_no_pom 0 l h
  · have hfp : filterPoms l f = l := by
      simp only [filterPoms]
      rw [if_neg hcond]
    rw [hfp]
    simp only [true_iff, iff_true]
    left
    intro hprop
    exact hcond ((trigger_iff f).mpr hprop)

/-- Witness for C1: the amended theorem instantiated at a concrete page
and filter. -/
theorem pom_exclusion_trigger_witness :
    filterPoms [pomA] [("p", "jar")] = [pomA] ↔
      (¬ ((∃ p, ([("p", "jar")] : StrMap).lookup "p" = some p ∧ p ≠ "" ∧ p ≠ "pom") ∨
          (∃ c, ([("p", "jar")] : StrMap).lookup "c" = some c ∧ c ≠ "")) ∨
       ∀ a ∈ [pomA], a.extension ≠ "pom") :=
  pom_exclusion_trigger [pomA] [("p", "jar")]

/-- C1 counterexample to the claim as stated: the filter holds the
classifier key with the empty value, the page holds a POM, yet
filterPoms removes nothing. -/
theorem pom_classifier_empty_counterexample :
    (([("c", "")] : StrMap).lookup "c" = some "") ∧
    pomA.extension = "pom" ∧
    filterPoms [pomA] [("c", "")] = [pomA] := by
  refine ⟨rfl, rfl, ?_⟩
  simp [filterPoms, has, List.lookup]

/-- C2: evaluating the code at the failing input. The filter sets
packaging to "jar", so the removal pass runs, yet of two adjacent POM
artifacts only the first is removed: erasing index i and then
incrementing i skips the element shifted into position i. -/
theorem filterPoms_adjacent_poms :
    pomA.extension = "pom" ∧ pomB.extension = "pom" ∧
    filterPoms [pomA, pomB] [("p", "jar")] = [pomB] := by
  refine ⟨rfl, rfl, ?_⟩
  simp [filterPoms, has, pomLoop, pomA, pomB]

/-- A string free of the two separator characters used by
Artifact.hash. -/
abbrev sepFree (s : String) : Prop := ':' ∉ s.data ∧ '@' ∉ s.data

/-- An artifact whose six fields are all free of the separator
characters of Artifact.hash. -/
abbrev cleanArtifact (a : Artifact) : Prop :=
  sepFree a.groupId ∧ sepFree a.artifactId ∧ sepFree a.version ∧
    sepFree a.classifier ∧ sepFree a.extension ∧ sepFree a.repositoryId

theorem sep_split {s1 s2 t1 t2 : List Char} {c : Char}
    (h1 : c ∉ s1) (h2 : c ∉ s2) (heq : s1 ++ c :: t1 = s2 ++ c :: t2) :
    s1 = s2 ∧ t1 = t2 := by
  induction s1 generalizing s2 with
  | nil =>
    cases s2 with
    | nil => simpa using heq
    | cons y ys =>
      simp only [List.nil_append, List.cons_append, List.cons.injEq] at heq
      exact absurd (heq.1 ▸ List.mem_cons_self y ys) h2
  | cons x xs ih =>
    cases s2 with
    | nil =>
      simp only [List.nil_append, List.cons_append, List.cons.injEq] at heq
      exact absurd (heq.1 ▸ List.mem_cons_self x xs) h1
    | cons y ys =>
      simp only [List.cons_append, List.cons.injEq] at heq
      obtain ⟨hxy, hrest⟩ := heq
      have h1' : c ∉ xs := fun hx => h1 (List.mem_cons_of_mem x hx)
      have h2' : c ∉ ys := fun hy => h2 (List.mem_cons_of_mem y hy)
      obtain ⟨hs, ht⟩ := ih h1' h2' hrest
      exact ⟨by rw [hxy, hs], ht⟩

theorem hash_data (x : Artifact) :
    x.hash.data =
      x.groupId.data ++ ':' :: (x.artifactId.data ++ ':' :: (x.version.data ++
        ':' :: (x.extension.data ++ ':' :: (x.classifier.data ++
          '@' :: x.repositoryId.data)))) := by
  simp [Artifact.hash, String.data_append]

/-- C3 (amended): for artifacts whose fields are free of the separator
characters ":" and "@", the hash string of a equals the hash string of b
if and only if a and b agree on all six fields. -/
theorem artifact_hash_inj (a b : Artifact)
    (ha : cleanArtifact a) (hb : cleanArtifact b) :
    a.hash = b.hash ↔ a = b := by
  constructor
  · intro h
    have hd := congrArg String.data h
    rw [hash_data, hash_data] at hd
    obtain ⟨hag, haa, hav, hac, hae, har⟩ := ha
    obtain ⟨hbg, hba, hbv, hbc, hbe, hbr⟩ := hb
    obtain ⟨hg, hd⟩ := sep_split hag.1 hbg.1 hd
    obtain ⟨haid, hd⟩ := sep_split haa.1 hba.1 hd
    obtain ⟨hv, hd⟩ := sep_split hav.1 hbv.1 hd
    obtain ⟨he, hd⟩ := sep_split hae.1 hbe.1 hd
    obtain ⟨hc, hr⟩ := sep_split hac.2 hbc.2 hd
    cases a; cases b
    simp only [Artifact.mk.injEq]
    exact ⟨String.ext hg, String.ext haid, String.ext hv, String.ext hc,
      String.ext he, String.ext hr⟩
  · intro h
    rw [h]

/-- Witness for C3's amended theorem at two concrete clean artifacts. -/
theorem artifact_hash_inj_witness :
    cleanArtifact jarA ∧ cleanArtifact pomA ∧
      (jarA.hash = pomA.hash ↔ jarA = pomA) :=
  ⟨by decide, by decide, artifact_hash_inj jarA pomA (by decide) (by decide)⟩

/-- A concrete artifact whose groupId holds a ":" separator. -/
def clashA : Artifact := ⟨"a:b", "", "", "", "", ""⟩

/-- A concrete artifact, field-wise distinct from clashA, whose hash
string coincides with clashA's. -/
def clashB : Artifact := ⟨"a", "b", ":", "", "", ""⟩

/-- C3 counterexample to the claim as stated: two field-wise distinct
artifacts with equal hash strings, so the identity key does not
distinguish artifacts over arbitrary field values. -/
theorem artifact_hash_clash :
    clashA ≠ clashB ∧ clashA.hash = clashB.hash := by
  exact ⟨by decide, rfl⟩

/-- The artifactSet representation invariant: the stored artifacts have
pairwise distinct hashes, and the hash map holds exactly the hashes of
the stored artifacts. -/
def setInv (s : artifactSet) : Prop :=
  (s.data.map Artifact.hash).Nodup ∧
    ∀ h, h ∈ s.hashMap ↔ h ∈ s.data.map Artifact.hash

theorem newArtifactSet_inv : setInv newArtifactSet := by
  constructor
  · simp [newArtifactSet]
  · simp [newArtifactSet]

theorem addOne_inv {s : artifactSet} (hs : setInv s) (a : Artifact) :
    setInv (s.addOne a) := by
  unfold artifactSet.addOne
  by_cases hmem : a.hash ∈ s.hashMap
  · rw [if_pos hmem]; exact hs
  · rw [if_neg hmem]
    obtain ⟨hnd, hiff⟩ := hs
    constructor
    · simp only [List.map_append, List.map_cons, List.map_nil]
      rw [List.nodup_append]
      refine ⟨hnd, List.nodup_singleton _, ?_⟩
      intro x hx
      simp only [List.mem_singleton]
      intro hxa
      subst hxa
      exact hmem ((hiff _).mpr hx)
    · intro h
      simp only [List.mem_cons, List.map_append, List.map_cons, List.map_nil,
        List.mem_append, List.mem_singleton]
      rw [hiff h]
      tauto

theorem add_inv {s : artifactSet} (hs : setInv s) (l : List Artifact) :
    setInv (s.add l) := by
  induction l generalizing s with
  | nil => exact hs
  | cons a t ih => exact ih (addOne_inv hs a)

theorem mergeAll_inv (batches : List (List Artifact)) :
    setInv (mergeAll batches) := by
  unfold mergeAll
  have : ∀ s, setInv s → setInv (batches.foldl artifactSet.add s) := by
    induction batches with
    | nil => exact fun s hs => hs
    | cons b bs ih => exact fun s hs => ih _ (add_inv hs b)
  exact this _ newArtifactSet_inv

theorem hash_mem_addOne (s : artifactSet) (a : Artifact) :
    a.hash ∈ (s.addOne a).hashMap := by
  unfold artifactSet.addOne
  by_cases hmem : a.hash ∈ s.hashMap
  · rw [if_pos hmem]; exact hmem
  · rw [if_neg hmem]; exact List.mem_cons_self _ _

theorem addOne_of_mem {s : artifactSet} {a : Artifact}
    (h : a.hash ∈ s.hashMap) : s.addOne a = s := by
  unfold artifactSet.addOne
  rw [if_pos h]

theorem addOne_hashMap_mem (s : artifactSet) (a : Artifact) (x : String) :
    x ∈ (s.addOne a).hashMap ↔ x ∈ s.hashMap ∨ x = a.hash := by
  unfold artifactSet.addOne
  by_cases hmem : a.hash ∈ s.hashMap
  · rw [if_pos hmem]
    constructor
    · exact Or.inl
    · rintro (h | h)
      · exact h
      · exact h ▸ hmem
  · rw [if_neg hmem]
    simp only [List.mem_cons]
    tauto

theorem add_hashMap_mem (s : artifactSet) (l : List Artifact) (x : String) :
    x ∈ (s.add l).hashMap ↔ x ∈ s.hashMap ∨ x ∈ l.map Artifact.hash := by
  induction l generalizing s with
  | nil => simp [artifactSet.add]
  | cons a t ih =>
    show x ∈ ((s.addOne a).add t).hashMap ↔ _
    rw [ih, addOne_hashMap_mem]
    simp only [List.map_cons, List.mem_cons]
    tauto

theorem add_data_of_fresh {s : artifactSet} {l : List Artifact}
    (h1 : ∀ a ∈ l, a.hash ∉ s.hashMap) (h2 : (l.map Artifact.hash).Nodup) :
    (s.add l).data = s.data ++ l := by
  induction l generalizing s with
  | nil => simp [artifactSet.add]
  | cons a t ih =>
    show ((s.addOne a).add t).data = _
    have hfresh : a.hash ∉ s.hashMap := h1 a (List.mem_cons_self a t)
    have hstep : s.addOne a = ⟨s.data ++ [a], a.hash :: s.hashMap⟩ := by
      unfold artifactSet.addOne
      rw [if_neg hfresh]
    rw [hstep, ih, ]
    · simp
    · intro b hb
      simp only [List.mem_cons]
      rintro (hba | hbs)
      · simp only [List.map_cons, List.nodup_cons] at h2
        exact h2.1 (hba ▸ List.mem_map_of_mem Artifact.hash hb)
      · exact h1 b (List.mem_cons_of_mem a hb) hbs
    · simp only [List.map_cons, List.nodup_cons] at h2
      exact h2.2

theorem foldl_add_fresh {batches : List (List Artifact)} {s : artifactSet}
    (h1 : ∀ a ∈ batches.flatten, a.hash ∉ s.hashMap)
    (h2 : (batches.flatten.map Artifact.hash).Nodup) :
    (batches.foldl artifactSet.add s).data = s.data ++ batches.flatten := by
  induction batches generalizing s with
  | nil => simp
  | cons b bs ih =>
    simp only [List.flatten_cons, List.map_append] at h1 h2 ⊢
    have hbn : (b.map Artifact.hash).Nodup := (List.nodup_append.mp h2).1
    have hbsn : (bs.flatten.map Artifact.hash).Nodup := (List.nodup_append.mp h2).2.1
    have hdisj := List.disjoint_of_nodup_append h2
    have hb1 : ∀ a ∈ b, a.hash ∉ s.hashMap := by
      intro a ha
      exact h1 a (List.mem_append_left _ ha)
    have hdata : (s.add b).data = s.data ++ b := add_data_of_fresh hb1 hbn
    rw [List.foldl_cons, ih, hdata, List.append_assoc]
    · intro a ha
      rw [add_hashMap_mem]
      rintro (hmem | hmem)
      · exact h1 a (List.mem_append_right _ ha) hmem
      · exact hdisj hmem (List.mem_map_of_mem Artifact.hash ha)
    · exact hbsn

/-- C4: over any sequence of merged batches the set's contents have
pairwise distinct hashes; merging the same artifact twice yields a set
of size 1; and re-adding an artifact already merged earlier leaves the
contents unchanged (and, being a total function, cannot error). -/
theorem artifactSet_dedup_invariant (batches : List (List Artifact)) (x : Artifact) :
    ((mergeAll batches).data.map Artifact.hash).Nodup ∧
      ((newArtifactSet.add [x]).add [x]).data.length = 1 ∧
      ((mergeAll (batches ++ [[x]])).add [x]).data =
        (mergeAll (batches ++ [[x]])).data := by
  refine ⟨(mergeAll_inv batches).1, ?_, ?_⟩
  · show ((newArtifactSet.addOne x).addOne x).data.length = 1
    have h1 : newArtifactSet.addOne x = ⟨[x], [x.hash]⟩ := by
      unfold artifactSet.addOne newArtifactSet
      simp
    rw [h1, addOne_of_mem (by simp : x.hash ∈ [x.hash])]
    rfl
  · have hsplit : mergeAll (batches ++ [[x]]) = (mergeAll batches).addOne x := by
      unfold mergeAll
      rw [List.foldl_append]
      rfl
    have hx : x.hash ∈ (mergeAll (batches ++ [[x]])).hashMap := by
      rw [hsplit]
      exact hash_mem_addOne _ _
    show ((mergeAll (batches ++ [[x]])).addOne x).data = _
    rw [addOne_of_mem hx]

/-- C5: when the artifacts spread across the batches have pairwise
distinct hashes, the merged set enumerates them exactly in merge order,
which is the order of first (and only) occurrence. -/
theorem mergeAll_order_preservation (batches : List (List Artifact))
    (h : (batches.flatten.map Artifact.hash).Nodup) :
    (mergeAll batches).data = batches.flatten := by
  unfold mergeAll
  rw [foldl_add_fresh _ h]
  · rfl
  · intro a _ hmem
    simp [newArtifactSet] at hmem

/-- Witness for C5 at three concrete artifacts split into two
batches. -/
theorem mergeAll_order_preservation_witness :
    (mergeAll [[jarA], [pomA, pomB]]).data = [[jarA], [pomA, pomB]].flatten :=
  mergeAll_order_preservation [[jarA], [pomA, pomB]] (by decide)

/-- The reducing loop of concurrentArtifactSearch: consume exactly one
completion per worker, merging a successful batch into the accumulating
set and returning the first error observed with no artifacts (the Go
code returns nil for the artifact slice alongside the error). -/
def reduceSearch (s : artifactSet) :
    List (Except String (List Artifact)) → Except String (List Artifact)
  | [] => Except.ok s.data
  | Except.error e :: _ => Except.error e
  | Except.ok a :: rest => reduceSearch (s.add a) rest

/-- concurrentArtifactSearch's observable behavior: one goroutine is
started per datum and each sends query's answer for its datum over a
channel; the reducer consumes the answers in whatever order the
scheduler delivers them. The delivery order is modelled by quantifying
the theorems over permutations of the list of worker answers. -/
def concurrentArtifactSearch
    (delivered : List (Except String (List Artifact))) :
    Except String (List Artifact) :=
  reduceSearch newArtifactSet delivered

theorem reduceSearch_error_of_mem (s : artifactSet)
    (completions : List (Except String (List Artifact)))
    (h : ∃ e, Except.error e ∈ completions) :
    ∃ e, reduceSearch s completions = Except.error e ∧
      (Except.error e : Except String (List Artifact)) ∈ completions := by
  induction completions generalizing s with
  | nil => simp at h
  | cons x rest ih =>
    cases x with
    | error e => exact ⟨e, rfl, List.mem_cons_self _ _⟩
    | ok a =>
      obtain ⟨e, he⟩ := h
      have hrest : (Except.error e : Except String (List Artifact)) ∈ rest := by
        rcases List.mem_cons.mp he with hx | hx
        · exact absurd hx (by simp)
        · exact hx
      obtain ⟨e', heq, hmem⟩ := ih (s.add a) ⟨e, hrest⟩
      exact ⟨e', heq, List.mem_cons_of_mem _ hmem⟩

/-- C6: for every key list, worker function and delivery order, if some
worker returns an error then the fan-out returns an error produced by
one of the workers, with no artifacts: the successful batches already
merged are discarded. -/
theorem fanOut_error_propagation (data : List String)
    (query : String → Except String (List Artifact))
    (delivered : List (Except String (List Artifact)))
    (hperm : delivered.Perm (data.map query))
    (herr : ∃ d ∈ data, ∃ e, query d = Except.error e) :
    ∃ e, concurrentArtifactSearch delivered = Except.error e ∧
      ∃ d ∈ data, query d = Except.error e := by
  obtain ⟨d, hd, e, he⟩ := herr
  have hmem : (Except.error e : Except String (List Artifact)) ∈ delivered :=
    hperm.mem_iff.mpr (he ▸ List.mem_map_of_mem query hd)
  obtain ⟨e', heq, hmem'⟩ :=
    reduceSearch_error_of_mem newArtifactSet delivered ⟨e, hmem⟩
  refine ⟨e', heq, ?_⟩
  obtain ⟨d', hd', hq⟩ := List.mem_map.mp (hperm.mem_iff.mp hmem')
  exact ⟨d', hd', hq⟩

/-- A concrete key list for the fan-out witness. -/
def wData : List String := ["k1", "k2", "k3"]

/-- A concrete worker whose second key fails. -/
def wQuery (s : String) : Except String (List Artifact) :=
  if s = "k2" then Except.error "boom" else Except.ok [jarA]

/-- Witness for C6 at three concrete keys, one failing worker and the
order the channel happens to deliver. -/
theorem fanOut_error_propagation_witness :
    ∃ e, concurrentArtifactSearch (wData.map wQuery) = Except.error e ∧
      ∃ d ∈ wData, wQuery d = Except.error e :=
  fanOut_error_propagation wData wQuery (wData.map wQuery)
    (List.Perm.refl _) ⟨"k2", by decide, "boom", rfl⟩

/-- One link of a search hit: extension plus classifier. -/
structure ArtifactLink where
  extension  : String
  classifier : String
deriving DecidableEq, Repr

/-- One hit inside a GAV group: the originating repository id plus its
links. -/
structure ArtifactHit where
  repositoryId  : String
  artifactLinks : List ArtifactLink
deriving DecidableEq, Repr

/-- One GAV group of the decoded search payload. -/
structure GavGroup where
  groupId      : String
  artifactId   : String
  version      : String
  artifactHits : List ArtifactHit
deriving DecidableEq, Repr

/-- The decoded payload of one search page
(artifactSearchResponse in the Go source). -/
structure artifactSearchResponse where
  totalCount : Nat
  data       : List GavGroup
deriving DecidableEq, Repr

/-- Expands the GAV groups of a page into artifacts, carrying each
group's coordinates and each hit's repository id onto every link. -/
def extractArtifactsFrom (payload : artifactSearchResponse) : List Artifact :=
  payload.data.flatMap (fun gav =>
    gav.artifactHits.flatMap (fun hit =>
      hit.artifactLinks.map (fun link =>
        ⟨gav.groupId, gav.artifactId, gav.version,
          link.classifier, link.extension, hit.repositoryId⟩)))

/-- The do-while crawl loop of fetchArtifactsWhere. The remote
fetch-then-decode step is the external capability fetchPage, keyed by
the pagination offset the filter's "from" parameter carries. The loop
body runs once before the termination test; each iteration records its
offset in reqs, merges the POM-filtered page into the set, and repeats
while the page held a nonzero number of GAV groups. fuel bounds the
number of iterations; none reports fuel exhaustion. -/
def crawlGo (fetchPage : Nat → Except String artifactSearchResponse)
    (filter : StrMap) :
    Nat → Nat → artifactSet → List Nat →
      Option (List Nat × Except String (List Artifact))
  | 0, _, _, _ => none
  | fuel + 1, start, acc, reqs =>
    match fetchPage start with
    | Except.error e => some (reqs ++ [start], Except.error e)
    | Except.ok payload =>
      let filterWithFrom := mapSet filter "from" (toString start)
      let acc' := acc.add (filterPoms (extractArtifactsFrom payload) filterWithFrom)
      let offset := payload.data.length
      if offset = 0 then some (reqs ++ [start], Except.ok acc'.data)
      else crawlGo fetchPage filter fuel (start + offset) acc' (reqs ++ [start])

/-- fetchArtifactsWhere: from 0, crawl until a page reports zero GAV
groups, accumulating into a fresh artifactSet. Returns the trace of
requested offsets alongside the outcome. -/
def fetchArtifactsWhere (fetchPage : Nat → Except String artifactSearchResponse)
    (filter : StrMap) (fuel : Nat) :
    Option (List Nat × Except String (List Artifact)) :=
  crawlGo fetchPage filter fuel 0 newArtifactSet []

theorem filterPoms_nil (f : StrMap) : filterPoms [] f = [] := by
  simp only [filterPoms]
  split
  · rw [pomLoop]
    simp
  · rfl

/-- C7: the crawl executes the body at least once; when the first
fetched page decodes to zero GAV groups it performs exactly one fetch
(the request trace is [0]) and returns an empty result with no error. -/
theorem crawl_at_least_once
    (fetchPage : Nat → Except String artifactSearchResponse)
    (filter : StrMap) (payload : artifactSearchResponse)
    (h0 : fetchPage 0 = Except.ok payload) (hempty : payload.data = [])
    (fuel : Nat) :
    fetchArtifactsWhere fetchPage filter (fuel + 1) =
      some ([0], Except.ok []) := by
  unfold fetchArtifactsWhere crawlGo
  rw [h0]
  simp only [hempty, extractArtifactsFrom, List.flatMap_nil, filterPoms_nil,
    List.length_nil, if_pos rfl]
  rfl

/-- Witness for C7: a concrete page source whose first page is empty. -/
theorem crawl_at_least_once_witness :
    fetchArtifactsWhere (fun _ => Except.ok ⟨0, []⟩) [] 1 =
      some ([0], Except.ok []) :=
  crawl_at_least_once (fun _ => Except.ok ⟨0, []⟩) [] ⟨0, []⟩ rfl rfl 0

/-- The number of GAV groups the page source reports at an offset; an
errored fetch contributes no groups. -/
def gavCount (fetchPage : Nat → Except String artifactSearchResponse)
    (offset : Nat) : Nat :=
  match fetchPage offset with
  | Except.ok payload => payload.data.length
  | Except.error _ => 0

/-- The total GAV-group count of the pages fetched at the given
offsets. -/
def sumCounts (fetchPage : Nat → Except String artifactSearchResponse)
    (reqs : List Nat) : Nat :=
  (reqs.map (gavCount fetchPage)).sum

theorem getD_append_left {α : Type} {l1 l2 : List α} {i : Nat} (d : α)
    (h : i < l1.length) : (l1 ++ l2).getD i d = l1.getD i d := by
  simp [List.getD, List.getElem?_append_left h]

theorem getD_concat_length {α : Type} (l : List α) (a d : α) :
    (l ++ [a]).getD l.length d = a := by
  simp [List.getD, List.getElem?_concat_length]

theorem sumCounts_snoc (fp : Nat → Except String artifactSearchResponse)
    (l : List Nat) (x : Nat) :
    sumCounts fp (l ++ [x]) = sumCounts fp l + gavCount fp x := by
  simp [sumCounts]

theorem chain_snoc (fp : Nat → Except String artifactSearchResponse)
    {l : List Nat} {x : Nat} (hx : x = sumCounts fp l)
    (hchain : ∀ i, i < l.length → l.getD i 0 = sumCounts fp (l.take i)) :
    ∀ i, i < (l ++ [x]).length →
      (l ++ [x]).getD i 0 = sumCounts fp ((l ++ [x]).take i) := by
  intro i hi
  simp only [List.length_append, List.length_singleton] at hi
  rcases Nat.lt_or_ge i l.length with hlt | hge
  · rw [getD_append_left 0 hlt,
      List.take_append_of_le_length (Nat.le_of_lt hlt), hchain i hlt]
  · have hieq : i = l.length := by omega
    subst hieq
    rw [getD_concat_length, List.take_left, hx]

theorem crawlGo_trace (fp : Nat → Except String artifactSearchResponse)
    (filter : StrMap) :
    ∀ (fuel start : Nat) (acc : artifactSet) (reqs reqs' : List Nat)
      (arts : List Artifact),
      crawlGo fp filter fuel start acc reqs = some (reqs', Except.ok arts) →
      start = sumCounts fp reqs →
      (∀ i, i < reqs.length → reqs.getD i 0 = sumCounts fp (reqs.take i)) →
      (∀ i, i < reqs.length → gavCount fp (reqs.getD i 0) ≠ 0) →
      ((∀ i, i < reqs'.length → reqs'.getD i 0 = sumCounts fp (reqs'.take i)) ∧
        reqs' ≠ [] ∧
        gavCount fp (reqs'.getD (reqs'.length - 1) 0) = 0 ∧
        (∀ i, i + 1 < reqs'.length → gavCount fp (reqs'.getD i 0) ≠ 0)) := by
  intro fuel
  induction fuel with
  | zero =>
    intro start acc reqs reqs' arts h
    exact absurd h (by simp [crawlGo])
  | succ fuel ih =>
    intro start acc reqs reqs' arts h hstart hchain hnz
    rw [crawlGo] at h
    cases hfp : fp start with
    | error e =>
      rw [hfp] at h
      simp at h
    | ok payload =>
      rw [hfp] at h
      simp only at h
      have hcount : gavCount fp start = payload.data.length := by
        unfold gavCount
        rw [hfp]
      by_cases hoff : payload.data.length = 0
      · rw [if_pos hoff] at h
        simp only [Option.some.injEq, Prod.mk.injEq, Except.ok.injEq] at h
        obtain ⟨hreqs, _⟩ := h
        subst hreqs
        refine ⟨chain_snoc fp hstart hchain, by simp, ?_, ?_⟩
        · simp only [List.length_append, List.length_singleton,
            Nat.add_sub_cancel]
          rw [getD_concat_length, hcount]
          exact hoff
        · intro i hi
          simp only [List.length_append, List.length_singleton] at hi
          have hlt : i < reqs.length := by omega
          rw [getD_append_left 0 hlt]
          exact hnz i hlt
      · rw [if_neg hoff] at h
        apply ih _ _ _ _ _ h
        · rw [sumCounts_snoc, ← hstart, hcount]
        · exact chain_snoc fp hstart hchain
        · intro i hi
          simp only [List.length_append, List.length_singleton] at hi
          rcases Nat.lt_or_ge i reqs.length with hlt | hge
          · rw [getD_append_left 0 hlt]
            exact hnz i hlt
          · have hieq : i = reqs.length := by omega
            subst hieq
            rw [getD_concat_length, hcount]
            exact hoff

/-- C8: whenever the crawl completes without error, every request's
"from" offset equals the total GAV-group count of all previously
fetched pages (so the trace starts at 0), and after each request the
loop repeated if and only if the page just fetched held a nonzero
number of GAV groups. -/
theorem crawl_pagination (fp : Nat → Except String artifactSearchResponse)
    (filter : StrMap) (fuel : Nat) (reqs : List Nat) (arts : List Artifact)
    (h : fetchArtifactsWhere fp filter fuel = some (reqs, Except.ok arts)) :
    (∀ i, i < reqs.length → reqs.getD i 0 = sumCounts fp (reqs.take i)) ∧
      (∀ i, i < reqs.length →
        ((i + 1 < reqs.length) ↔ gavCount fp (reqs.getD i 0) ≠ 0)) := by
  obtain ⟨hchain, hne, hlast, hmid⟩ :=
    crawlGo_trace fp filter fuel 0 newArtifactSet [] reqs arts h rfl
      (by intro i hi; simp at hi) (by intro i hi; simp at hi)
  refine ⟨hchain, ?_⟩
  intro i hi
  constructor
  · exact hmid i
  · intro hcnt
    by_contra hge
    have hieq : i = reqs.length - 1 := by omega
    subst hieq
    exact hcnt hlast

/-- A concrete first page with two GAV groups of one jar link each. -/
def wPage1 : artifactSearchResponse :=
  ⟨2, [⟨"g1", "a1", "1", [⟨"r", [⟨"jar", ""⟩]⟩]⟩,
       ⟨"g2", "a2", "1", [⟨"r", [⟨"jar", ""⟩]⟩]⟩]⟩

/-- A concrete page source: two GAV groups at offset 0, none
afterwards. -/
def wFetch (offset : Nat) : Except String artifactSearchResponse :=
  if offset = 0 then Except.ok wPage1 else Except.ok ⟨0, []⟩

/-- The artifact of wPage1's first group. -/
def wArt1 : Artifact := ⟨"g1", "a1", "1", "", "jar", "r"⟩

/-- The artifact of wPage1's second group. -/
def wArt2 : Artifact := ⟨"g2", "a2", "1", "", "jar", "r"⟩

/-- Witness for C8: the pagination property evaluated on a concrete
two-fetch crawl whose trace is [0, 2]. -/
theorem crawl_pagination_witness :
    (∀ i, i < ([0, 2] : List Nat).length →
        ([0, 2] : List Nat).getD i 0 = sumCounts wFetch (([0, 2] : List Nat).take i)) ∧
      (∀ i, i < ([0, 2] : List Nat).length →
        ((i + 1 < ([0, 2] : List Nat).length) ↔
          gavCount wFetch (([0, 2] : List Nat).getD i 0) ≠ 0)) :=
  crawl_pagination wFetch [] 2 [0, 2] [wArt1, wArt2] (by decide)

/-- The search criteria mini-DSL: each variant compiles to the parameter
map Nexus expects. inRepository wraps another criteria and adds the
repository id, the repository id taking precedence on key collision. -/
inductive Criteria where
  | noCriteria
  | byCoordinates (groupId artifactId version packaging classifier : String)
  | byKeyword (q : String)
  | byClassname (cn : String)
  | byChecksum (sha1 : String)
  | byRepository (repositoryId : String)
  | inRepository (repositoryId : String) (criteria : Criteria)
deriving DecidableEq, Repr

/-- Parameters compiles a criteria to the map of flags Nexus' REST API
accepts. -/
def Criteria.Parameters : Criteria → StrMap
  | Criteria.noCriteria => []
  | Criteria.byCoordinates g a v p c =>
      [("g", g), ("a", a), ("v", v), ("p", p), ("c", c)]
  | Criteria.byKeyword q => [("q", q)]
  | Criteria.byClassname cn => [("cn", cn)]
  | Criteria.byChecksum sha1 => [("sha1", sha1)]
  | Criteria.byRepository r => [("repositoryId", r)]
  | Criteria.inRepository r c => mapSet c.Parameters "repositoryId" r

/-- OrZero returns the given criteria untouched if it is not nil
(modelled by Option), and the None criteria otherwise. -/
def OrZero : Option Criteria → Criteria
  | none => Criteria.noCriteria
  | some c => c

/-- The three search capabilities Artifacts dispatches to:
full-instance expansion, repository expansion, and the direct paginated
search. They are external collaborators of the dispatch logic. -/
structure SearchEnv where
  fetchAll   : Except String (List Artifact)
  fetchFrom  : String → Except String (List Artifact)
  fetchWhere : StrMap → Except String (List Artifact)

/-- Nexus2x.Artifacts: normalize the criteria, compile it to parameters
and dispatch on the parameter map's shape, exactly as the Go source:
zero parameters route to the full search, a single repositoryId
parameter routes to the per-repository search, anything else routes to
the direct filtered search. -/
def Artifacts (env : SearchEnv) (criteria : Option Criteria) :
    Except String (List Artifact) :=
  let params := (OrZero criteria).Parameters
  if params.length = 0 then
    env.fetchAll
  else if params.length = 1 then
    match params.lookup "repositoryId" with
    | some repoId => env.fetchFrom repoId
    | none => env.fetchWhere params
  else
    env.fetchWhere params

/-- C9: top-level dispatch of Artifacts on the criteria's parameter
map: an empty map routes to full-instance expansion; a map holding
exactly one entry whose key is the repository id routes to repository
expansion; every other non-empty map routes to the single direct
paginated search with that filter. -/
theorem artifacts_dispatch (env : SearchEnv) (criteria : Option Criteria) :
    ((OrZero criteria).Parameters = [] →
        Artifacts env criteria = env.fetchAll) ∧
      (∀ r, (OrZero criteria).Parameters = [("repositoryId", r)] →
        Artifacts env criteria = env.fetchFrom r) ∧
      ((OrZero criteria).Parameters ≠ [] →
        (∀ r, (OrZero criteria).Parameters ≠ [("repositoryId", r)]) →
        Artifacts env criteria = env.fetchWhere (OrZero criteria).Parameters) := by
  refine ⟨?_, ?_, ?_⟩
  · intro h
    unfold Artifacts
    simp [h]
  · intro r h
    unfold Artifacts
    simp [h, List.lookup]
  · intro hne hnr
    unfold Artifacts
    simp only
    rw [if_neg (by simpa using hne)]
    by_cases h1 : (OrZero criteria).Parameters.length = 1
    · rw [if_pos h1]
      obtain ⟨⟨k, v⟩, hkv⟩ := List.length_eq_one.mp h1
      rw [hkv]
      by_cases hk : k = "repositoryId"
      · subst hk
        exact absurd hkv (hnr v)
      · have hlk : (([(k, v)] : StrMap).lookup "repositoryId") = none := by
          have hbeq : ("repositoryId" == k) = false := by
            simp only [beq_eq_false_iff_ne, ne_eq]
            exact fun heq => hk heq.symm
          simp [List.lookup, hbeq]
        rw [hlk, ← hkv]
    · rw [if_neg h1]

/-- A concrete capability environment with distinguishable outcomes. -/
def wEnv : SearchEnv :=
  ⟨Except.error "all", fun r => Except.error ("from " ++ r),
    fun _ => Except.error "where"⟩

/-- Witness for C9: the repository-expansion route taken at a concrete
single-parameter criteria. -/
theorem artifacts_dispatch_witness :
    Artifacts wEnv (some (Criteria.byRepository "releases")) =
      wEnv.fetchFrom "releases" :=
  (artifacts_dispatch wEnv (some (Criteria.byRepository "releases"))).2.1
    "releases" rfl

/-- C10: a nil criteria is normalized to the None criteria, whose
parameter map is empty, so it routes to full-instance expansion rather
than failing. -/
theorem artifacts_nil_criteria (env : SearchEnv) :
    Artifacts env none = Artifacts env (some Criteria.noCriteria) ∧
      Artifacts env none = env.fetchAll :=
  ⟨rfl, rfl⟩

end Nexus
